import Mathlib

/-!
# Plugin proxy director (`pkg/api/pluginproxy/pluginproxy.go`)

A shallow embedding of `getHeaders` and of the director closure built by
`NewApiPluginProxy`, together with the parts of the Go standard library the
director calls (`net/http.Header`, `net/textproto.CanonicalMIMEHeaderKey`,
`net.SplitHostPort`, and the way `httputil.ReverseProxy.ServeHTTP` uses its
`Director`).  Collaborators whose code is not part of the package (the template
engine, the settings bus, secret decryption, `json.Marshal`, `url.Parse`,
`util.JoinUrlFragments`) are fields of an environment record.
-/

namespace PluginProxy

/-! ## `net/textproto`: canonical header keys -/

/-- The bytes `textproto` accepts in a header field name (the token bytes of
RFC 7230): digits, letters and fifteen punctuation bytes, given by code point. -/
def validHeaderFieldByte (c : Char) : Bool :=
  let n := c.toNat
  (48 ≤ n && n ≤ 57) || (65 ≤ n && n ≤ 90) || (97 ≤ n && n ≤ 122) ||
    n = 33 || n = 35 || n = 36 || n = 37 || n = 38 || n = 39 || n = 42 || n = 43 ||
    n = 45 || n = 46 || n = 94 || n = 95 || n = 96 || n = 124 || n = 126

/-- One step of the loop of `canonicalMIMEHeaderKey`: with `upper` set a lower-case
letter is raised (`c -= toLower`), without it an upper-case letter is lowered
(`c += toLower`); `toLower = 'a' - 'A' = 32`. -/
def canonByte (upper : Bool) (c : Char) : Char :=
  if upper && (97 ≤ c.toNat && c.toNat ≤ 122) then Char.ofNat (c.toNat - 32)
  else if !upper && (65 ≤ c.toNat && c.toNat ≤ 90) then Char.ofNat (c.toNat + 32)
  else c

/-- The loop of `canonicalMIMEHeaderKey`: the first letter and every letter after a
dash are upper case, all others lower case. -/
def canonLoop : Bool → List Char → List Char
  | _, [] => []
  | upper, c :: cs => canonByte upper c :: canonLoop (canonByte upper c == '-') cs

/-- Go `textproto.CanonicalMIMEHeaderKey` (as in the current Go releases): a key
holding a byte that is not a valid header field byte is returned unchanged, any
other key is canonicalised. -/
def CanonicalMIMEHeaderKey (s : String) : String :=
  if s.data.all validHeaderFieldByte then String.mk (canonLoop true s.data) else s

/-! ## `net/http.Header` -/

/-- Go `http.Header` is `map[string][]string`; the map is kept as an association list
read through `Header.index`, which sees the first entry of a key. -/
abbrev Header := List (String × List String)

/-- The map index `h[key]`: the values stored under the exact key, `nil` when the
key is absent. -/
def Header.index : Header → String → List String
  | [], _ => []
  | (k, vs) :: t, key => if k = key then vs else Header.index t key

/-- The builtin `delete(h, key)`. -/
def Header.delete (h : Header) (key : String) : Header :=
  h.filter (fun e => e.1 ≠ key)

/-- The map assignment `h[key] = vs`. -/
def Header.assign (h : Header) (key : String) (vs : List String) : Header :=
  (key, vs) :: Header.delete h key

/-- Go `Header.Del`: deletes the values of the canonical key. -/
def Header.Del (h : Header) (key : String) : Header :=
  Header.delete h (CanonicalMIMEHeaderKey key)

/-- Go `Header.Set`: replaces the values of the canonical key by the single `value`. -/
def Header.Set (h : Header) (key value : String) : Header :=
  Header.assign h (CanonicalMIMEHeaderKey key) [value]

/-- Go `Header.Add`: appends `value` to the values of the canonical key. -/
def Header.Add (h : Header) (key value : String) : Header :=
  Header.assign h (CanonicalMIMEHeaderKey key)
    (Header.index h (CanonicalMIMEHeaderKey key) ++ [value])

/-- Go `Header.Get`: the first value of the canonical key, `""` when there is none. -/
def Header.Get (h : Header) (key : String) : String :=
  match Header.index h (CanonicalMIMEHeaderKey key) with
  | [] => ""
  | v :: _ => v

/-- All values a header name has on a request: `h[CanonicalMIMEHeaderKey(key)]`. -/
def Header.values (h : Header) (key : String) : List String :=
  Header.index h (CanonicalMIMEHeaderKey key)

/-! ## `net.SplitHostPort` -/

/-- Index of the first occurrence of `c` (`byteIndex`), `none` for Go's `-1`. -/
def byteIndex : List Char → Char → Option Nat
  | [], _ => none
  | x :: t, c => if x = c then some 0 else (byteIndex t c).map (· + 1)

/-- Index of the last occurrence of `c` (`last`), `none` for Go's `-1`. -/
def last : List Char → Char → Option Nat
  | [], _ => none
  | x :: t, c =>
    match last t c with
    | some i => some (i + 1)
    | none => if x = c then some 0 else none

/-- Go `net.SplitHostPort` (as in the current Go releases): splits `host:port` and
`[host]:port` into host and port.  The director only tests `err != nil`, so every
`AddrError` is `none` here. -/
def SplitHostPort (hostport : String) : Option (String × String) :=
  let s := hostport.data
  match last s ':' with
  | none => none
  | some i =>
    if s.head? = some '[' then
      match byteIndex s ']' with
      | none => none
      | some e =>
        if e + 1 = s.length then none
        else if e + 1 = i then
          if (byteIndex (s.drop 1) '[').isSome then none
          else if (byteIndex (s.drop (e + 1)) ']').isSome then none
          else some (String.mk ((s.take e).drop 1), String.mk (s.drop (i + 1)))
        else none
    else
      if (byteIndex (s.take i) ':').isSome then none
      else if (byteIndex s '[').isSome then none
      else if (byteIndex s ']').isSome then none
      else some (String.mk (s.take i), String.mk (s.drop (i + 1)))

/-! ## Data model -/

/-- Go `plugins.AppPluginRouteHeader`. -/
structure AppPluginRouteHeader where
  Name : String
  Content : String
deriving DecidableEq, Repr

/-- Go `plugins.AppPluginRoute`, the fields the proxy reads. -/
structure AppPluginRoute where
  Url : String
  Headers : List AppPluginRouteHeader
deriving DecidableEq, Repr

/-- Go `url.URL`, the fields the director writes, and the query it leaves alone. -/
structure URL where
  Scheme : String
  Host : String
  Path : String
  RawQuery : String
deriving DecidableEq, Repr

/-- Go `http.Request`, the fields the director reads or writes. -/
structure Request where
  URL : URL
  Host : String
  Header : Header
  RemoteAddr : String
deriving DecidableEq, Repr

/-- Go `m.GetPluginSettingByIdQuery`, the key sent over the bus. -/
structure GetPluginSettingByIdQuery where
  OrgId : Int
  PluginId : String
deriving DecidableEq, Repr

/-- Go `query.Result`: plain settings `J` and encrypted settings `E`. -/
structure PluginSetting (J E : Type) where
  JsonData : J
  SecureJsonData : E

/-- Go `templateData`, all a header template can see. -/
structure templateData (J S : Type) where
  JsonData : J
  SecureJsonData : S

/-- Go `middleware.Context`, the fields the director reads. -/
structure Context (U : Type) where
  SignedInUser : U
  OrgId : Int

/-- A call of `ctx.JsonApiErr(status, message, err)`. -/
structure ApiErr where
  status : Nat
  message : String
  err : String
deriving DecidableEq, Repr

/-- Calls the renderer makes on its collaborators, in program order. -/
inductive Event where
  | dispatch (query : GetPluginSettingByIdQuery)
  | parse (header : String)
  | execute (header : String)
deriving DecidableEq, Repr

/-- The collaborators of the package: `U` is the identity type, `J`/`E`/`S` the
plain, encrypted and decrypted settings, `T` a compiled template. -/
structure Env (U J E S T : Type) where
  /-- Go `bus.Dispatch(&query)`: the settings, or the error of the handler. -/
  dispatch : GetPluginSettingByIdQuery → Except String (PluginSetting J E)
  /-- Go `SecureJsonData.Decrypt()`. -/
  decrypt : E → S
  /-- Go `template.New("content").Parse(src)`, `none` when it returns an error. -/
  templateParse : String → Option T
  /-- Go `t.Execute(&buf, data)`: the buffer, `none` when it returns an error. -/
  templateExecute : T → templateData J S → Option String
  /-- Go `json.Marshal(ctx.SignedInUser)`. -/
  jsonMarshal : U → Except String String
  /-- Go `url.Parse(route.Url)`, `none` for the nil URL returned with an error. -/
  urlParse : String → Option URL
  /-- Go `util.JoinUrlFragments`. -/
  JoinUrlFragments : String → String → String

/-- What running the director leaves behind. -/
inductive Outcome where
  /-- A run-time panic (nil dereference, index out of range): the director does
  not return and `ServeHTTP` unwinds. -/
  | panicked (events : List Event)
  /-- The director returned, leaving `req`; `apiErr` is the `JsonApiErr` call made
  on the way, if any. -/
  | returned (req : Request) (apiErr : Option ApiErr) (events : List Event)
deriving DecidableEq, Repr

/-! ## `getHeaders` -/

section Code
variable {U J E S T : Type}

/-- The loop of `getHeaders` over `route.Headers`, from the header set built so
far: the calls made and the header set or the error returned. -/
def renderHeaders (env : Env U J E S T) (data : templateData J S) :
    List AppPluginRouteHeader → Header → List Event × Except String Header
  | [], result => ([], .ok result)
  | header :: rest, result =>
    match env.templateParse header.Content with
    | none =>
      ([.parse header.Name],
        .error ("could not parse header content template for header " ++ header.Name ++ "."))
    | some t =>
      match env.templateExecute t data with
      | none =>
        ([.parse header.Name, .execute header.Name],
          .error ("failed to execute header content template for header " ++ header.Name ++ "."))
      | some content =>
        let r := renderHeaders env data rest (Header.Add result header.Name content)
        (.parse header.Name :: .execute header.Name :: r.1, r.2)

/-- The function `getHeaders`, with the calls it makes. -/
def getHeaders (env : Env U J E S T) (route : AppPluginRoute) (orgId : Int) (appId : String) :
    List Event × Except String Header :=
  let query : GetPluginSettingByIdQuery := { OrgId := orgId, PluginId := appId }
  match env.dispatch query with
  | .error err => ([.dispatch query], .error err)
  | .ok result =>
    let data : templateData J S :=
      { JsonData := result.JsonData, SecureJsonData := env.decrypt result.SecureJsonData }
    let r := renderHeaders env data route.Headers []
    (.dispatch query :: r.1, r.2)

/-! ## The director -/

/-- The loop `for key, value := range headers { req.Header.Set(key, value[0]) }`,
taken in the order of the list; `none` is the index panic of `value[0]`.  Go visits
the keys in no fixed order, which `setHeaders_perm` shows to be immaterial. -/
def setHeaders : Header → List (String × List String) → Option Header
  | h, [] => some h
  | h, (key, value) :: rest =>
    match value with
    | [] => none
    | v :: _ => setHeaders (Header.Set h key v) rest

/-- The address the director forwards: `remoteAddr, _, err := net.SplitHostPort(..)`
and, `if err != nil`, the raw `req.RemoteAddr`. -/
def remoteHost (remoteAddr : String) : String :=
  match SplitHostPort remoteAddr with
  | some (host, _) => host
  | none => remoteAddr

/-- The block `// set X-Forwarded-For header`. -/
def setForwardedFor (remoteAddr : String) (h : Header) : Header :=
  if remoteAddr ≠ "" then
    if Header.Get h "X-Forwarded-For" ≠ "" then
      Header.Set h "X-Forwarded-For"
        (Header.Get h "X-Forwarded-For" ++ ", " ++ remoteHost remoteAddr)
    else
      Header.Set h "X-Forwarded-For" (remoteHost remoteAddr)
  else h

/-- The five `req.Header.Del` calls. -/
def clearHeaders (h : Header) : Header :=
  Header.Del (Header.Del (Header.Del (Header.Del (Header.Del h "Cookie") "Set-Cookie")
    "X-Forwarded-Host") "X-Forwarded-Port") "X-Forwarded-Proto"

/-- The closure `director` of `NewApiPluginProxy`; `targetUrl` is the result of
`url.Parse(route.Url)`, whose error the constructor drops. -/
def director (env : Env U J E S T) (ctx : Context U) (proxyPath : String)
    (route : AppPluginRoute) (appId : String) (targetUrl : Option URL) (req : Request) :
    Outcome :=
  match targetUrl with
  | none => .panicked []
  | some target =>
    let req : Request :=
      { req with
        URL := { req.URL with
          Scheme := target.Scheme
          Host := target.Host
          Path := env.JoinUrlFragments target.Path proxyPath }
        Host := target.Host }
    let req : Request := { req with Header := clearHeaders req.Header }
    let req : Request := { req with Header := setForwardedFor req.RemoteAddr req.Header }
    match env.jsonMarshal ctx.SignedInUser with
    | .error err =>
      .returned req (some ⟨500, "failed to marshal context to json.", err⟩) []
    | .ok ctxJson =>
      let req : Request := { req with Header := Header.Add req.Header "X-Grafana-Context" ctxJson }
      if route.Headers.length > 0 then
        match getHeaders env route ctx.OrgId appId with
        | (events, .error err) =>
          .returned req (some ⟨500, "Could not generate plugin route header", err⟩) events
        | (events, .ok headers) =>
          match setHeaders req.Header headers with
          | none => .panicked events
          | some h => .returned { req with Header := h } none events
      else
        .returned req none []

/-- The constructor `NewApiPluginProxy`: the director of the returned proxy. -/
def NewApiPluginProxy (env : Env U J E S T) (ctx : Context U) (proxyPath : String)
    (route : AppPluginRoute) (appId : String) : Request → Outcome :=
  director env ctx proxyPath route appId (env.urlParse route.Url)

/-! ## `httputil.ReverseProxy.ServeHTTP` -/

/-- What `ServeHTTP` does with the director: `p.Director(outreq)` has no result, so
whenever it returns `outreq` goes on to `transport.RoundTrip`; only a panic keeps
the request from the transport.  The rewriting `ServeHTTP` does itself after the
director is left out. -/
def ServeHTTP (directorFn : Request → Outcome) (req : Request) : Option Request :=
  match directorFn req with
  | .panicked _ => none
  | .returned outreq _ _ => some outreq

/-- The request the director left, when it returned. -/
def Outcome.request? : Outcome → Option Request
  | .panicked _ => none
  | .returned req _ _ => some req

/-- The `JsonApiErr` call the director made, if it returned after one. -/
def Outcome.apiErr? : Outcome → Option ApiErr
  | .panicked _ => none
  | .returned _ apiErr _ => apiErr

/-- The calls made on the settings bus and the template engine. -/
def Outcome.events : Outcome → List Event
  | .panicked events => events
  | .returned _ _ events => events

/-! ## Vocabulary of the statements -/

/-- The value a header rule renders to: its template compiled and executed on
`data`, as one turn of the loop of `getHeaders` does; `none` when either fails. -/
def rendered (env : Env U J E S T) (data : templateData J S)
    (header : AppPluginRouteHeader) : Option String :=
  match env.templateParse header.Content with
  | none => none
  | some t => env.templateExecute t data

/-- The template data `getHeaders` builds from the settings the bus returned. -/
def dataOf (env : Env U J E S T) (result : PluginSetting J E) : templateData J S :=
  { JsonData := result.JsonData, SecureJsonData := env.decrypt result.SecureJsonData }

/-- The calls the loop of `getHeaders` makes for a rule that renders. -/
def renderEvents (header : AppPluginRouteHeader) : List Event :=
  [.parse header.Name, .execute header.Name]

/-! ## A concrete environment -/

/-- A settings bus, template engine, serialiser and URL parser small enough to run:
the identity is an optional login, templates are literal text apart from three
actions, and one plugin id is unknown to the bus. -/
def exampleEnv : Env (Option String) String String String String where
  dispatch := fun q =>
    if q.PluginId = "unknown-app" then .error "plugin setting not found"
    else .ok { JsonData := "v", SecureJsonData := "c2VjcmV0" }
  decrypt := fun e => if e = "c2VjcmV0" then "secret" else e
  templateParse := fun src => if src = "\x7b\x7b" then none else some src
  templateExecute := fun t data =>
    if t = "\x7b\x7b.JsonData.x\x7d\x7d" then some data.JsonData
    else if t = "\x7b\x7b.SecureJsonData.token\x7d\x7d" then some data.SecureJsonData
    else if t = "\x7b\x7b.JsonData.x.y\x7d\x7d" then none
    else some t
  jsonMarshal := fun u =>
    match u with
    | some login => .ok ("\"" ++ login ++ "\"")
    | none => .error "json: unsupported value"
  urlParse := fun s =>
    if s = "https://backend.example/api" then some ⟨"https", "backend.example", "/api", ""⟩
    else none
  JoinUrlFragments := fun a b => a ++ "/" ++ b

/-- A signed-in caller of organisation 1. -/
def exampleCtx : Context (Option String) := { SignedInUser := some "admin", OrgId := 1 }

/-- A caller whose identity does not serialise. -/
def brokenCtx : Context (Option String) := { SignedInUser := none, OrgId := 1 }

/-- A route to the example backend with the given header rules. -/
def exampleRoute (headers : List AppPluginRouteHeader) : AppPluginRoute :=
  { Url := "https://backend.example/api", Headers := headers }

/-- An inbound request with the given headers and remote address. -/
def exampleReq (header : Header) (remoteAddr : String) : Request :=
  { URL := ⟨"http", "grafana.local", "/api/plugin-proxy/app/query", "from=now"⟩
    Host := "grafana.local"
    Header := header
    RemoteAddr := remoteAddr }

/-- Four rules: the third does not execute, the fourth does not compile. -/
def failingRules : List AppPluginRouteHeader :=
  [⟨"X-A", "a"⟩, ⟨"X-B", "\x7b\x7b.JsonData.x\x7d\x7d"⟩,
    ⟨"X-C", "\x7b\x7b.JsonData.x.y\x7d\x7d"⟩, ⟨"X-D", "\x7b\x7b"⟩]

/-- Two rules that render, one from the plain and one from the secret settings. -/
def renderingRules : List AppPluginRouteHeader :=
  [⟨"X-B", "\x7b\x7b.JsonData.x\x7d\x7d"⟩,
    ⟨"Authorization", "\x7b\x7b.SecureJsonData.token\x7d\x7d"⟩]

/-- The settings the example bus returns. -/
def exampleSetting : PluginSetting String String := { JsonData := "v", SecureJsonData := "c2VjcmV0" }

end Code

/-- A header set as the Go map built by `Header.Add` and `Header.Set` is: one entry
per key, every key canonical, no entry without a value. -/
def WellKeyed (h : Header) : Prop :=
  (h.map Prod.fst).Nodup ∧ ∀ e ∈ h, CanonicalMIMEHeaderKey e.1 = e.1 ∧ e.2 ≠ []

/-- The five header names the director deletes. -/
def strippedHeaders : List String :=
  ["Cookie", "Set-Cookie", "X-Forwarded-Host", "X-Forwarded-Port", "X-Forwarded-Proto"]

/-! ## Canonical keys are fixed points of canonicalisation -/

theorem toNat_ofNat_byte (n : Nat) (h : n < 256) : (Char.ofNat n).toNat = n := by
  have hv : n.isValidChar := Or.inl (by omega)
  unfold Char.ofNat
  rw [dif_pos hv]
  rfl

theorem canonByte_idem (upper : Bool) (c : Char) :
    canonByte upper (canonByte upper c) = canonByte upper c := by
  cases upper
  · by_cases h : 65 ≤ c.toNat ∧ c.toNat ≤ 90
    · have e : canonByte false c = Char.ofNat (c.toNat + 32) := by simp [canonByte, h]
      have h1 : (Char.ofNat (c.toNat + 32)).toNat = c.toNat + 32 :=
        toNat_ofNat_byte _ (by omega)
      rw [e]
      simp only [canonByte, h1]
      simp
      intros
      omega
    · have e : canonByte false c = c := by simp [canonByte, h]
      rw [e, e]
  · by_cases h : 97 ≤ c.toNat ∧ c.toNat ≤ 122
    · have e : canonByte true c = Char.ofNat (c.toNat - 32) := by simp [canonByte, h]
      have h1 : (Char.ofNat (c.toNat - 32)).toNat = c.toNat - 32 :=
        toNat_ofNat_byte _ (by omega)
      rw [e]
      simp only [canonByte, h1]
      simp
      intros
      omega
    · have e : canonByte true c = c := by simp [canonByte, h]
      rw [e, e]

theorem canonByte_valid (upper : Bool) (c : Char) (hc : validHeaderFieldByte c = true) :
    validHeaderFieldByte (canonByte upper c) = true := by
  unfold canonByte
  cases upper
  · by_cases h : 65 ≤ c.toNat ∧ c.toNat ≤ 90
    · have h1 : (Char.ofNat (c.toNat + 32)).toNat = c.toNat + 32 :=
        toNat_ofNat_byte _ (by omega)
      have h3 : 97 ≤ c.toNat + 32 ∧ c.toNat + 32 ≤ 122 := by omega
      simp [h, validHeaderFieldByte, h1, h3]
    · simpa [h] using hc
  · by_cases h : 97 ≤ c.toNat ∧ c.toNat ≤ 122
    · have h1 : (Char.ofNat (c.toNat - 32)).toNat = c.toNat - 32 :=
        toNat_ofNat_byte _ (by omega)
      have h3 : 65 ≤ c.toNat - 32 ∧ c.toNat - 32 ≤ 90 := by omega
      simp [h, validHeaderFieldByte, h1, h3]
    · simpa [h] using hc

theorem canonLoop_idem (cs : List Char) :
    ∀ upper : Bool, canonLoop upper (canonLoop upper cs) = canonLoop upper cs := by
  induction cs with
  | nil => intro upper; rfl
  | cons c cs ih =>
    intro upper
    simp only [canonLoop, canonByte_idem]
    rw [ih]

theorem canonLoop_valid (cs : List Char) :
    ∀ upper : Bool, cs.all validHeaderFieldByte = true →
      (canonLoop upper cs).all validHeaderFieldByte = true := by
  induction cs with
  | nil => intro upper _; rfl
  | cons c cs ih =>
    intro upper h
    simp only [List.all_cons, Bool.and_eq_true] at h
    simp only [canonLoop, List.all_cons, Bool.and_eq_true]
    exact ⟨canonByte_valid upper c h.1, ih _ h.2⟩

/-- Canonicalising a canonical key changes nothing. -/
theorem canonical_idem (s : String) :
    CanonicalMIMEHeaderKey (CanonicalMIMEHeaderKey s) = CanonicalMIMEHeaderKey s := by
  unfold CanonicalMIMEHeaderKey
  by_cases h : s.data.all validHeaderFieldByte = true
  · have h2 := canonLoop_valid s.data true h
    simp only [h, if_true, h2, canonLoop_idem]
  · simp only [h]
    simp only [Bool.false_eq_true, if_false, h]

/-! ## The header map -/

theorem index_delete (h : Header) (key k : String) :
    Header.index (Header.delete h key) k = if k = key then [] else Header.index h k := by
  induction h with
  | nil => simp [Header.delete, Header.index]
  | cons e t ih =>
    obtain ⟨k0, vs⟩ := e
    unfold Header.delete at ih ⊢
    by_cases h0 : k0 = key
    · have hf : List.filter (fun e => decide (e.1 ≠ key)) ((k0, vs) :: t)
          = List.filter (fun e => decide (e.1 ≠ key)) t := by
        rw [List.filter_cons_of_neg]
        simp [h0]
      rw [hf, ih]
      by_cases h1 : k = key
      · simp [h1]
      · have h2 : ¬ k0 = k := fun h => h1 (h.symm.trans h0)
        simp [h1, Header.index, h2]
    · have hf : List.filter (fun e => decide (e.1 ≠ key)) ((k0, vs) :: t)
          = (k0, vs) :: List.filter (fun e => decide (e.1 ≠ key)) t := by
        rw [List.filter_cons_of_pos]
        simp [h0]
      rw [hf]
      simp only [Header.index]
      by_cases h1 : k0 = k
      · have h2 : ¬ k = key := fun h => h0 (h1.trans h)
        simp [h1, h2]
      · simp only [h1, if_false]
        exact ih

theorem index_assign (h : Header) (key k : String) (vs : List String) :
    Header.index (Header.assign h key vs) k = if k = key then vs else Header.index h k := by
  unfold Header.assign
  simp only [Header.index]
  by_cases h1 : key = k
  · simp [h1]
  · have h2 : ¬ k = key := fun h => h1 h.symm
    simp [h1, h2, index_delete]

theorem values_Del (h : Header) (key k : String) :
    Header.index (Header.Del h key) k =
      if k = CanonicalMIMEHeaderKey key then [] else Header.index h k :=
  index_delete h _ k

theorem values_Set (h : Header) (key v k : String) :
    Header.index (Header.Set h key v) k =
      if k = CanonicalMIMEHeaderKey key then [v] else Header.index h k :=
  index_assign h _ k _

theorem values_Add (h : Header) (key v k : String) :
    Header.index (Header.Add h key v) k =
      if k = CanonicalMIMEHeaderKey key then Header.index h k ++ [v] else Header.index h k := by
  unfold Header.Add
  rw [index_assign]
  by_cases h1 : k = CanonicalMIMEHeaderKey key
  · simp [h1]
  · simp [h1]

theorem mem_keys_delete (h : Header) (key k : String) :
    k ∈ (Header.delete h key).map Prod.fst ↔ k ∈ h.map Prod.fst ∧ k ≠ key := by
  unfold Header.delete
  simp only [List.mem_map, List.mem_filter, decide_eq_true_eq]
  constructor
  · rintro ⟨e, ⟨he, hne⟩, rfl⟩
    exact ⟨⟨e, he, rfl⟩, hne⟩
  · rintro ⟨⟨e, he, rfl⟩, hne⟩
    exact ⟨e, ⟨he, hne⟩, rfl⟩

theorem wellKeyed_nil : WellKeyed [] := by
  constructor
  · simp
  · intro e he
    cases he

theorem wellKeyed_assign (h : Header) (key : String) (vs : List String)
    (hw : WellKeyed h) (hk : CanonicalMIMEHeaderKey key = key) (hv : vs ≠ []) :
    WellKeyed (Header.assign h key vs) := by
  obtain ⟨hn, he⟩ := hw
  unfold Header.assign
  constructor
  · rw [List.map_cons, List.nodup_cons]
    constructor
    · intro hmem
      exact ((mem_keys_delete h key key).1 hmem).2 rfl
    · unfold Header.delete
      exact (List.filter_sublist h).map Prod.fst |>.nodup hn
  · intro e hmem
    rcases List.mem_cons.1 hmem with rfl | hmem
    · exact ⟨hk, hv⟩
    · exact he e (List.mem_of_mem_filter hmem)

theorem wellKeyed_Add (h : Header) (key v : String) (hw : WellKeyed h) :
    WellKeyed (Header.Add h key v) :=
  wellKeyed_assign h _ _ hw (canonical_idem key) (by simp)

theorem index_of_not_mem_keys (h : Header) (k : String) (hk : k ∉ h.map Prod.fst) :
    Header.index h k = [] := by
  induction h with
  | nil => rfl
  | cons e t ih =>
    obtain ⟨k0, vs⟩ := e
    simp only [List.map_cons, List.mem_cons, not_or] at hk
    have h0 : ¬ k0 = k := fun h => hk.1 h.symm
    simp only [Header.index, h0, if_false]
    exact ih hk.2

theorem index_ne_nil_of_mem_keys (h : Header) (k : String) (hw : WellKeyed h)
    (hk : k ∈ h.map Prod.fst) : Header.index h k ≠ [] := by
  induction h with
  | nil => cases hk
  | cons e t ih =>
    obtain ⟨k0, vs⟩ := e
    by_cases h0 : k0 = k
    · simp only [Header.index, h0, if_true]
      exact (hw.2 (k0, vs) (List.mem_cons_self _ _)).2
    · simp only [Header.index, h0, if_false]
      have hk2 : k ∈ t.map Prod.fst := by
        simp only [List.map_cons, List.mem_cons] at hk
        rcases hk with hk | hk
        · exact absurd hk.symm h0
        · exact hk
      have hw2 : WellKeyed t := by
        refine ⟨?_, fun e he => hw.2 e (List.mem_cons_of_mem _ he)⟩
        have := hw.1
        rw [List.map_cons, List.nodup_cons] at this
        exact this.2
      exact ih hw2 hk2

/-- The loop over the rendered header set: it does not panic, a key of the set ends
with the first value stored under it, any other key keeps its values. -/
theorem setHeaders_spec (l : List (String × List String)) :
    ∀ h : Header, WellKeyed l →
      ∃ h2, setHeaders h l = some h2 ∧
        ∀ k, Header.index h2 k =
          if k ∈ l.map Prod.fst then (Header.index l k).take 1 else Header.index h k := by
  induction l with
  | nil =>
    intro h _
    exact ⟨h, rfl, fun k => by simp⟩
  | cons e rest ih =>
    intro h hw
    obtain ⟨key, value⟩ := e
    have hkey := (hw.2 (key, value) (List.mem_cons_self _ _)).1
    have hval := (hw.2 (key, value) (List.mem_cons_self _ _)).2
    have hnd := hw.1
    rw [List.map_cons, List.nodup_cons] at hnd
    have hw2 : WellKeyed rest := ⟨hnd.2, fun e he => hw.2 e (List.mem_cons_of_mem _ he)⟩
    cases value with
    | nil => exact absurd rfl hval
    | cons v vs =>
      obtain ⟨h2, hs, hi⟩ := ih (Header.Set h key v) hw2
      refine ⟨h2, by simpa [setHeaders] using hs, ?_⟩
      intro k
      rw [hi k, values_Set]
      simp only at hkey
      by_cases hk : k = key
      · subst hk
        have hnot : k ∉ rest.map Prod.fst := hnd.1
        simp [hnot, hkey, Header.index]
      · have hk2 : ¬ key = k := fun h => hk h.symm
        have hk3 : ¬ k = CanonicalMIMEHeaderKey key := by rw [hkey]; exact hk
        simp only [List.map_cons, List.mem_cons, hk, false_or, Header.index, hk2, if_false, hk3]

theorem index_of_mem (h : Header) (hw : WellKeyed h) (k : String) (vs : List String)
    (hm : (k, vs) ∈ h) : Header.index h k = vs := by
  induction h with
  | nil => cases hm
  | cons e t ih =>
    obtain ⟨k0, vs0⟩ := e
    have hnd := hw.1
    rw [List.map_cons, List.nodup_cons] at hnd
    have hw2 : WellKeyed t := ⟨hnd.2, fun e he => hw.2 e (List.mem_cons_of_mem _ he)⟩
    rcases List.mem_cons.1 hm with heq | hm
    · cases heq
      simp [Header.index]
    · have hne : ¬ k0 = k := by
        intro heq
        apply hnd.1
        rw [heq]
        exact List.mem_map.2 ⟨(k, vs), hm, rfl⟩
      simp only [Header.index, hne, if_false]
      exact ih hw2 hm

theorem wellKeyed_perm (l l2 : Header) (hp : l.Perm l2) (hw : WellKeyed l) : WellKeyed l2 :=
  ⟨(hp.map Prod.fst).nodup_iff.1 hw.1, fun e he => hw.2 e (hp.mem_iff.2 he)⟩

/-- Go visits the keys of the rendered header set in no fixed order; whatever the
order, the loop `for key, value := range headers` leaves the same values under
every key. -/
theorem setHeaders_perm (l l2 : Header) (hp : l.Perm l2) (hw : WellKeyed l) (h : Header) :
    ∃ a b, setHeaders h l = some a ∧ setHeaders h l2 = some b ∧
      ∀ k, Header.index a k = Header.index b k := by
  have hw2 := wellKeyed_perm l l2 hp hw
  obtain ⟨a, ha, hia⟩ := setHeaders_spec l h hw
  obtain ⟨b, hb, hib⟩ := setHeaders_spec l2 h hw2
  refine ⟨a, b, ha, hb, fun k => ?_⟩
  rw [hia k, hib k]
  by_cases hk : k ∈ l.map Prod.fst
  · have hk2 : k ∈ l2.map Prod.fst := (hp.map Prod.fst).mem_iff.1 hk
    obtain ⟨⟨k0, vs⟩, hm, hk0⟩ := List.mem_map.1 hk
    simp only at hk0
    subst hk0
    rw [if_pos hk, if_pos hk2, index_of_mem l hw k0 vs hm,
      index_of_mem l2 hw2 k0 vs (hp.mem_iff.1 hm)]
  · have hk2 : k ∉ l2.map Prod.fst := fun h => hk ((hp.map Prod.fst).mem_iff.2 h)
    rw [if_neg hk, if_neg hk2]

/-! ## The renderer -/

section Renderer
variable {U J E S T : Type}

/-- When every rule renders, the loop of `getHeaders` returns a header set: under
each key the values already there, followed by the rendered values of the rules of
that key in route order. -/
theorem renderHeaders_ok (env : Env U J E S T) (data : templateData J S)
    (rules : List AppPluginRouteHeader) :
    ∀ acc : Header, WellKeyed acc → (∀ r ∈ rules, (rendered env data r).isSome) →
      ∃ h, renderHeaders env data rules acc = ((rules.map renderEvents).flatten, .ok h) ∧
        WellKeyed h ∧
        ∀ k, Header.index h k = Header.index acc k ++
          (rules.filter (fun r => CanonicalMIMEHeaderKey r.Name = k)).filterMap
            (rendered env data) := by
  induction rules with
  | nil =>
    intro acc hw _
    exact ⟨acc, rfl, hw, fun k => by simp⟩
  | cons r rest ih =>
    intro acc hw hr
    have hr0 := hr r (List.mem_cons_self _ _)
    have hrest : ∀ x ∈ rest, (rendered env data x).isSome :=
      fun x hx => hr x (List.mem_cons_of_mem _ hx)
    cases hp : env.templateParse r.Content with
    | none => simp [rendered, hp] at hr0
    | some t =>
      cases hx : env.templateExecute t data with
      | none => simp [rendered, hp, hx] at hr0
      | some content =>
        obtain ⟨h, he, hw2, hi⟩ :=
          ih (Header.Add acc r.Name content) (wellKeyed_Add acc r.Name content hw) hrest
        refine ⟨h, ?_, hw2, ?_⟩
        · simp only [renderHeaders, hp, hx, he, List.map_cons, List.flatten_cons, renderEvents,
            List.cons_append, List.nil_append]
        · intro k
          have hrd : rendered env data r = some content := by simp [rendered, hp, hx]
          rw [hi k, values_Add]
          by_cases hk : CanonicalMIMEHeaderKey r.Name = k
          · have hk2 : k = CanonicalMIMEHeaderKey r.Name := hk.symm
            rw [if_pos hk2, List.filter_cons_of_pos (by simpa using hk),
              List.filterMap_cons_some hrd]
            simp
          · have hk2 : ¬ k = CanonicalMIMEHeaderKey r.Name := fun h => hk h.symm
            rw [if_neg hk2, List.filter_cons_of_neg (by simpa using hk)]

/-- The loop of `getHeaders` stops at the first rule that does not render: the rules
before it are rendered, the failing rule is compiled (and executed when it
compiles), and the error names it. -/
theorem renderHeaders_fail (env : Env U J E S T) (data : templateData J S)
    (pre : List AppPluginRouteHeader) (r : AppPluginRouteHeader)
    (post : List AppPluginRouteHeader) :
    ∀ acc : Header, (∀ x ∈ pre, (rendered env data x).isSome) →
      (env.templateParse r.Content = none →
        renderHeaders env data (pre ++ r :: post) acc =
          ((pre.map renderEvents).flatten ++ [.parse r.Name],
            .error ("could not parse header content template for header " ++ r.Name ++ "."))) ∧
      (∀ t, env.templateParse r.Content = some t → env.templateExecute t data = none →
        renderHeaders env data (pre ++ r :: post) acc =
          ((pre.map renderEvents).flatten ++ [.parse r.Name, .execute r.Name],
            .error ("failed to execute header content template for header " ++ r.Name ++ "."))) := by
  induction pre with
  | nil =>
    intro acc _
    constructor
    · intro hp
      simp [renderHeaders, hp]
    · intro t hp hx
      simp [renderHeaders, hp, hx]
  | cons p pre ih =>
    intro acc hr
    have hr0 := hr p (List.mem_cons_self _ _)
    have hrest : ∀ x ∈ pre, (rendered env data x).isSome :=
      fun x hx => hr x (List.mem_cons_of_mem _ hx)
    cases hp : env.templateParse p.Content with
    | none => simp [rendered, hp] at hr0
    | some t =>
      cases hx : env.templateExecute t data with
      | none => simp [rendered, hp, hx] at hr0
      | some content =>
        obtain ⟨h1, h2⟩ := ih (Header.Add acc p.Name content) hrest
        constructor
        · intro hpr
          rw [List.cons_append]
          simp only [renderHeaders, hp, hx]
          rw [h1 hpr]
          simp [renderEvents]
        · intro t2 hpr hxr
          rw [List.cons_append]
          simp only [renderHeaders, hp, hx]
          rw [h2 t2 hpr hxr]
          simp [renderEvents]

/-- A list with an element that does not render splits at the first such element. -/
theorem first_failure (env : Env U J E S T) (data : templateData J S)
    (rules : List AppPluginRouteHeader)
    (hf : ∃ x ∈ rules, rendered env data x = none) :
    ∃ pre r post, rules = pre ++ r :: post ∧
      (∀ x ∈ pre, (rendered env data x).isSome) ∧ rendered env data r = none := by
  induction rules with
  | nil =>
    obtain ⟨x, hx, _⟩ := hf
    cases hx
  | cons a rest ih =>
    cases ha : rendered env data a with
    | none => exact ⟨[], a, rest, rfl, fun x hx => absurd hx (List.not_mem_nil x), ha⟩
    | some v =>
      have hf2 : ∃ x ∈ rest, rendered env data x = none := by
        obtain ⟨x, hx, hn⟩ := hf
        rcases List.mem_cons.1 hx with rfl | hx
        · rw [ha] at hn
          cases hn
        · exact ⟨x, hx, hn⟩
      obtain ⟨pre, r, post, he, hpre, hr⟩ := ih hf2
      refine ⟨a :: pre, r, post, by rw [he]; rfl, ?_, hr⟩
      intro x hx
      rcases List.mem_cons.1 hx with rfl | hx
      · simp [ha]
      · exact hpre x hx

/-- Among rules that all render, the first value kept under a key is the rendered
value of the first rule of that key. -/
theorem take_one_rendered (f : AppPluginRouteHeader → Option String)
    (p : AppPluginRouteHeader → Bool) (rules : List AppPluginRouteHeader)
    (hr : ∀ r ∈ rules, (f r).isSome) :
    ((rules.filter p).filterMap f).take 1 =
      match rules.find? p with
      | some r => (f r).toList
      | none => [] := by
  induction rules with
  | nil => rfl
  | cons a rest ih =>
    have hrest : ∀ x ∈ rest, (f x).isSome := fun x hx => hr x (List.mem_cons_of_mem _ hx)
    by_cases hp : p a = true
    · obtain ⟨v, hv⟩ := Option.isSome_iff_exists.1 (hr a (List.mem_cons_self _ _))
      rw [List.filter_cons_of_pos hp, List.filterMap_cons_some hv, List.find?_cons_of_pos _ hp]
      simp [hv]
    · rw [List.filter_cons_of_neg hp, List.find?_cons_of_neg _ hp]
      exact ih hrest

theorem rendered_eq_nil_iff (f : AppPluginRouteHeader → Option String)
    (p : AppPluginRouteHeader → Bool) (rules : List AppPluginRouteHeader)
    (hr : ∀ r ∈ rules, (f r).isSome) :
    (rules.filter p).filterMap f = [] ↔ rules.find? p = none := by
  induction rules with
  | nil => simp
  | cons a rest ih =>
    have hrest : ∀ x ∈ rest, (f x).isSome := fun x hx => hr x (List.mem_cons_of_mem _ hx)
    by_cases hp : p a = true
    · obtain ⟨v, hv⟩ := Option.isSome_iff_exists.1 (hr a (List.mem_cons_self _ _))
      rw [List.filter_cons_of_pos hp, List.filterMap_cons_some hv, List.find?_cons_of_pos _ hp]
      simp
    · rw [List.filter_cons_of_neg hp, List.find?_cons_of_neg _ hp]
      exact ih hrest

/-- A header set returned by `getHeaders` comes from a successful settings lookup
and rules that all render, and holds their rendered values key by key. -/
theorem getHeaders_inv (env : Env U J E S T) (route : AppPluginRoute) (orgId : Int)
    (appId : String) (ev : List Event) (h : Header)
    (hg : getHeaders env route orgId appId = (ev, .ok h)) :
    ∃ result, env.dispatch ⟨orgId, appId⟩ = .ok result ∧
      (∀ r ∈ route.Headers, (rendered env (dataOf env result) r).isSome) ∧
      WellKeyed h ∧
      ∀ k, Header.index h k =
        (route.Headers.filter (fun r => CanonicalMIMEHeaderKey r.Name = k)).filterMap
          (rendered env (dataOf env result)) := by
  unfold getHeaders at hg
  cases hd : env.dispatch ⟨orgId, appId⟩ with
  | error err =>
    simp only [hd] at hg
    cases hg
  | ok result =>
    simp only [hd] at hg
    refine ⟨result, rfl, ?_⟩
    have hall : ∀ r ∈ route.Headers, (rendered env (dataOf env result) r).isSome := by
      by_contra hcon
      simp only [not_forall] at hcon
      obtain ⟨x, hx, hn⟩ := hcon
      have hn2 : rendered env (dataOf env result) x = none := by
        cases hv : rendered env (dataOf env result) x with
        | none => rfl
        | some v => simp [hv] at hn
      obtain ⟨pre, r, post, he, hpre, hr⟩ :=
        first_failure env (dataOf env result) route.Headers ⟨x, hx, hn2⟩
      obtain ⟨h1, h2⟩ := renderHeaders_fail env (dataOf env result) pre r post [] hpre
      rw [he] at hg
      cases hp : env.templateParse r.Content with
      | none =>
        have := h1 hp
        unfold dataOf at this
        rw [this] at hg
        cases hg
      | some t =>
        have hx2 : env.templateExecute t (dataOf env result) = none := by
          simpa [rendered, hp] using hr
        have := h2 t hp hx2
        unfold dataOf at this
        rw [this] at hg
        cases hg
    obtain ⟨h0, he, hw, hi⟩ :=
      renderHeaders_ok env (dataOf env result) route.Headers [] wellKeyed_nil hall
    unfold dataOf at he
    rw [he] at hg
    simp only [Prod.mk.injEq, Except.ok.injEq] at hg
    obtain ⟨_, rfl⟩ := hg
    exact ⟨hall, hw, fun k => by simpa [Header.index] using hi k⟩

/-- The header set the director has built when it reaches the custom-header step
(or leaves at the identity step): hygiene, then the forwarded-address chain. -/
theorem director_cases (env : Env U J E S T) (ctx : Context U) (proxyPath : String)
    (route : AppPluginRoute) (appId : String) (req : Request) (target : URL)
    (hu : env.urlParse route.Url = some target) :
    ∃ out e ev, NewApiPluginProxy env ctx proxyPath route appId req = .returned out e ev ∧
      ((∃ err, env.jsonMarshal ctx.SignedInUser = .error err ∧
          e = some ⟨500, "failed to marshal context to json.", err⟩ ∧ ev = [] ∧
          out.Header = setForwardedFor req.RemoteAddr (clearHeaders req.Header)) ∨
       (∃ j, env.jsonMarshal ctx.SignedInUser = .ok j ∧ route.Headers = [] ∧
          e = none ∧ ev = [] ∧
          out.Header = Header.Add (setForwardedFor req.RemoteAddr (clearHeaders req.Header))
            "X-Grafana-Context" j) ∨
       (∃ j err, env.jsonMarshal ctx.SignedInUser = .ok j ∧ route.Headers ≠ [] ∧
          getHeaders env route ctx.OrgId appId = (ev, .error err) ∧
          e = some ⟨500, "Could not generate plugin route header", err⟩ ∧
          out.Header = Header.Add (setForwardedFor req.RemoteAddr (clearHeaders req.Header))
            "X-Grafana-Context" j) ∨
       (∃ j h, env.jsonMarshal ctx.SignedInUser = .ok j ∧ route.Headers ≠ [] ∧
          getHeaders env route ctx.OrgId appId = (ev, .ok h) ∧ e = none ∧
          ∀ k, Header.index out.Header k =
            if k ∈ h.map Prod.fst then (Header.index h k).take 1
            else Header.index
              (Header.Add (setForwardedFor req.RemoteAddr (clearHeaders req.Header))
                "X-Grafana-Context" j) k)) := by
  unfold NewApiPluginProxy director
  rw [hu]
  cases hm : env.jsonMarshal ctx.SignedInUser with
  | error err =>
    exact ⟨_, _, _, rfl, Or.inl ⟨err, rfl, rfl, rfl, rfl⟩⟩
  | ok j =>
    by_cases hl : route.Headers = []
    · have hlen : ¬ route.Headers.length > 0 := by simp [hl]
      simp only [hlen, if_false]
      exact ⟨_, _, _, rfl, Or.inr (Or.inl ⟨j, rfl, hl, rfl, rfl, rfl⟩)⟩
    · have hlen : route.Headers.length > 0 := List.length_pos.2 hl
      simp only [hlen, if_true]
      cases hg : getHeaders env route ctx.OrgId appId with
      | mk ev r =>
        cases r with
        | error err =>
          exact ⟨_, _, _, rfl, Or.inr (Or.inr (Or.inl ⟨j, err, rfl, hl, rfl, rfl, rfl⟩))⟩
        | ok h =>
          obtain ⟨_, _, _, hw, _⟩ := getHeaders_inv env route ctx.OrgId appId ev h hg
          obtain ⟨h2, hs, hi⟩ := setHeaders_spec h
            (Header.Add (setForwardedFor req.RemoteAddr (clearHeaders req.Header))
              "X-Grafana-Context" j) hw
          simp only [hs]
          exact ⟨_, _, _, rfl, Or.inr (Or.inr (Or.inr ⟨j, h, rfl, hl, rfl, rfl, hi⟩))⟩

/-! ## Hygiene and the forwarded-address chain -/

theorem index_clearHeaders (h : Header) (k : String) :
    Header.index (clearHeaders h) k = if k ∈ strippedHeaders then [] else Header.index h k := by
  have c1 : CanonicalMIMEHeaderKey "Cookie" = "Cookie" := by decide
  have c2 : CanonicalMIMEHeaderKey "Set-Cookie" = "Set-Cookie" := by decide
  have c3 : CanonicalMIMEHeaderKey "X-Forwarded-Host" = "X-Forwarded-Host" := by decide
  have c4 : CanonicalMIMEHeaderKey "X-Forwarded-Port" = "X-Forwarded-Port" := by decide
  have c5 : CanonicalMIMEHeaderKey "X-Forwarded-Proto" = "X-Forwarded-Proto" := by decide
  unfold clearHeaders
  simp only [values_Del, c1, c2, c3, c4, c5, strippedHeaders, List.mem_cons, List.mem_singleton,
    List.not_mem_nil, or_false]
  split_ifs <;> simp_all

theorem canonical_forwardedFor :
    CanonicalMIMEHeaderKey "X-Forwarded-For" = "X-Forwarded-For" := by decide

theorem canonical_grafanaContext :
    CanonicalMIMEHeaderKey "X-Grafana-Context" = "X-Grafana-Context" := by decide

theorem index_setForwardedFor (remoteAddr : String) (h : Header) (k : String) :
    Header.index (setForwardedFor remoteAddr h) k =
      if k = "X-Forwarded-For" ∧ remoteAddr ≠ "" then
        [if Header.Get h "X-Forwarded-For" ≠ "" then
            Header.Get h "X-Forwarded-For" ++ ", " ++ remoteHost remoteAddr
          else remoteHost remoteAddr]
      else Header.index h k := by
  unfold setForwardedFor
  by_cases ha : remoteAddr = ""
  · simp [ha]
  · by_cases hg : Header.Get h "X-Forwarded-For" = ""
    · simp only [ne_eq, ha, not_false_eq_true, if_true, hg, not_true_eq_false, if_false,
        values_Set, canonical_forwardedFor, and_true]
    · simp only [ne_eq, ha, not_false_eq_true, if_true, hg, values_Set,
        canonical_forwardedFor, and_true]

/-- The header set before the identity step: stripped names are gone,
`X-Forwarded-For` holds the chain, every other key is as inbound. -/
theorem index_forwarded (remoteAddr : String) (h : Header) (k : String) :
    Header.index (setForwardedFor remoteAddr (clearHeaders h)) k =
      if k ∈ strippedHeaders then []
      else if k = "X-Forwarded-For" ∧ remoteAddr ≠ "" then
        [if Header.Get h "X-Forwarded-For" ≠ "" then
            Header.Get h "X-Forwarded-For" ++ ", " ++ remoteHost remoteAddr
          else remoteHost remoteAddr]
      else Header.index h k := by
  have hget : Header.Get (clearHeaders h) "X-Forwarded-For" = Header.Get h "X-Forwarded-For" := by
    unfold Header.Get
    rw [index_clearHeaders, canonical_forwardedFor]
    have : ¬ "X-Forwarded-For" ∈ strippedHeaders := by decide
    simp only [this, if_false]
  rw [index_setForwardedFor, hget, index_clearHeaders]
  by_cases hs : k ∈ strippedHeaders
  · have hk : ¬ k = "X-Forwarded-For" := by
      intro hk
      rw [hk] at hs
      revert hs
      decide
    simp [hs, hk]
  · simp [hs]

/-- The values of a key when the director returns, for a key no rule of the route
writes or a run that ended in a `JsonApiErr`: those of the forwarded header set,
with the identity appended under `X-Grafana-Context` once it has serialised. -/
theorem director_index (env : Env U J E S T) (ctx : Context U) (proxyPath : String)
    (route : AppPluginRoute) (appId : String) (req : Request) (target : URL)
    (hu : env.urlParse route.Url = some target) :
    ∃ out e ev, NewApiPluginProxy env ctx proxyPath route appId req = .returned out e ev ∧
      (e = none → ∃ j, env.jsonMarshal ctx.SignedInUser = .ok j) ∧
      ∀ k, (e ≠ none ∨ ∀ r ∈ route.Headers, CanonicalMIMEHeaderKey r.Name ≠ k) →
        Header.index out.Header k =
          Header.index (setForwardedFor req.RemoteAddr (clearHeaders req.Header)) k ++
            (if k = "X-Grafana-Context" then
              (match env.jsonMarshal ctx.SignedInUser with
                | .ok j => [j]
                | .error _ => [])
            else []) := by
  obtain ⟨out, e, ev, ho, hc⟩ := director_cases env ctx proxyPath route appId req target hu
  refine ⟨out, e, ev, ho, ?_, ?_⟩
  · intro he
    rcases hc with ⟨err, _, h1, _⟩ | ⟨j, hm, _⟩ | ⟨j, err, _, _, _, h1, _⟩ | ⟨j, h, hm, _⟩
    · rw [he] at h1
      cases h1
    · exact ⟨j, hm⟩
    · rw [he] at h1
      cases h1
    · exact ⟨j, hm⟩
  · intro k hk
    rcases hc with ⟨err, hm, _, _, hh⟩ | ⟨j, hm, _, _, _, hh⟩ | ⟨j, err, hm, _, _, _, hh⟩ |
      ⟨j, h, hm, _, hg, he, hi⟩
    · rw [hh, hm]
      simp
    · rw [hh, hm, values_Add, canonical_grafanaContext]
      split_ifs <;> simp
    · rw [hh, hm, values_Add, canonical_grafanaContext]
      split_ifs <;> simp
    · have hno : ∀ r ∈ route.Headers, CanonicalMIMEHeaderKey r.Name ≠ k := by
        rcases hk with hk | hk
        · exact absurd he hk
        · exact hk
      obtain ⟨result, _, _, hw, hidx⟩ := getHeaders_inv env route ctx.OrgId appId ev h hg
      have hnot : k ∉ h.map Prod.fst := by
        intro hmem
        apply index_ne_nil_of_mem_keys h k hw hmem
        rw [hidx k]
        have : route.Headers.filter (fun r => CanonicalMIMEHeaderKey r.Name = k) = [] := by
          rw [List.filter_eq_nil_iff]
          intro r hr
          simpa using hno r hr
        rw [this]
        rfl
      rw [hi k, if_neg hnot, hm, values_Add, canonical_grafanaContext]
      split_ifs <;> simp

/-- The values of a key on the success path: the rendered value of the first rule
of that key when the route has one, else the values before the custom-header step. -/
theorem director_rendered (env : Env U J E S T) (ctx : Context U) (proxyPath : String)
    (route : AppPluginRoute) (appId : String) (req : Request) (target : URL)
    (ctxJson : String) (result : PluginSetting J E)
    (hu : env.urlParse route.Url = some target)
    (hm : env.jsonMarshal ctx.SignedInUser = .ok ctxJson)
    (hd : env.dispatch ⟨ctx.OrgId, appId⟩ = .ok result)
    (hr : ∀ r ∈ route.Headers, (rendered env (dataOf env result) r).isSome) :
    ∃ out ev, NewApiPluginProxy env ctx proxyPath route appId req = .returned out none ev ∧
      ∀ k, ∀ a, route.Headers.find? (fun r => CanonicalMIMEHeaderKey r.Name = k) = some a →
        Header.index out.Header k = (rendered env (dataOf env result) a).toList := by
  obtain ⟨out, e, ev, ho, hc⟩ := director_cases env ctx proxyPath route appId req target hu
  have hok : ∃ h, (getHeaders env route ctx.OrgId appId).2 = .ok h := by
    obtain ⟨h, he, _⟩ := renderHeaders_ok env (dataOf env result) route.Headers []
      wellKeyed_nil hr
    refine ⟨h, ?_⟩
    unfold getHeaders
    simp only [hd]
    unfold dataOf at he
    rw [he]
  rcases hc with ⟨err, hm2, _⟩ | ⟨j, _, hn, he, _, _⟩ | ⟨j, err, _, _, hg, _⟩ |
    ⟨j, h, _, _, hg, he, hi⟩
  · rw [hm] at hm2
    cases hm2
  · subst he
    refine ⟨out, ev, ho, ?_⟩
    intro k a hf
    rw [hn] at hf
    cases hf
  · obtain ⟨h, hh⟩ := hok
    rw [hg] at hh
    cases hh
  · subst he
    refine ⟨out, ev, ho, ?_⟩
    intro k a hf
    obtain ⟨result2, hd2, hr2, hw, hidx⟩ := getHeaders_inv env route ctx.OrgId appId ev h hg
    rw [hd] at hd2
    cases hd2
    have hne : Header.index h k ≠ [] := by
      rw [hidx k]
      intro hnil
      rw [rendered_eq_nil_iff _ _ _ hr, hf] at hnil
      cases hnil
    have hmem : k ∈ h.map Prod.fst := by
      by_contra hnot
      exact hne (index_of_not_mem_keys h k hnot)
    rw [hi k, if_pos hmem, hidx k, take_one_rendered _ _ _ hr, hf]

theorem find_of_nodup (rules : List AppPluginRouteHeader)
    (hnd : (rules.map (fun r => CanonicalMIMEHeaderKey r.Name)).Nodup)
    (r : AppPluginRouteHeader) (hr : r ∈ rules) :
    rules.find? (fun x => CanonicalMIMEHeaderKey x.Name = CanonicalMIMEHeaderKey r.Name)
      = some r := by
  induction rules with
  | nil => cases hr
  | cons a rest ih =>
    rw [List.map_cons, List.nodup_cons] at hnd
    rcases List.mem_cons.1 hr with rfl | hr
    · rw [List.find?_cons_of_pos]
      simp
    · have hne : ¬ CanonicalMIMEHeaderKey a.Name = CanonicalMIMEHeaderKey r.Name := by
        intro heq
        apply hnd.1
        rw [heq]
        exact List.mem_map.2 ⟨r, hr, rfl⟩
      rw [List.find?_cons_of_neg _ (by simpa using hne)]
      exact ih hnd.2 hr

/-! ## The claims -/

/-- C1, as stated, fails: with two rules named `X-A` rendering `1` and then `2`, the
outbound request carries `1`, the value of the first rule, and not the later `2`. -/
theorem later_duplicate_rule_does_not_win :
    rendered exampleEnv (dataOf exampleEnv exampleSetting) ⟨"X-A", "2"⟩ = some "2" ∧
    (NewApiPluginProxy exampleEnv exampleCtx "query"
        (exampleRoute [⟨"X-A", "1"⟩, ⟨"X-A", "2"⟩]) "app"
        (exampleReq [] "1.2.3.4:5555")).request?.map (fun r => Header.values r.Header "X-A")
      = some ["1"] ∧
    (NewApiPluginProxy exampleEnv exampleCtx "query"
        (exampleRoute [⟨"X-A", "1"⟩, ⟨"X-A", "2"⟩]) "app"
        (exampleReq [] "1.2.3.4:5555")).request?.map (fun r => Header.values r.Header "X-A")
      ≠ some ["2"] := by
  decide

/-- C1, amended: when the route has several header rules of one name and all its
rules render, the director returns without error and the outbound request carries
exactly one value under that name, the rendered value of the first rule of that
name in route order; the values of the later rules of that name are dropped.
Names are compared as `net/http` compares header names, by canonical key. -/
theorem first_rule_of_a_name_wins (env : Env U J E S T) (ctx : Context U)
    (proxyPath : String) (route : AppPluginRoute) (appId : String) (req : Request)
    (target : URL) (ctxJson : String) (result : PluginSetting J E)
    (hu : env.urlParse route.Url = some target)
    (hm : env.jsonMarshal ctx.SignedInUser = .ok ctxJson)
    (hd : env.dispatch ⟨ctx.OrgId, appId⟩ = .ok result)
    (hr : ∀ r ∈ route.Headers, (rendered env (dataOf env result) r).isSome)
    (name : String) (first : AppPluginRouteHeader) (v : String)
    (hfirst : route.Headers.find?
      (fun r => CanonicalMIMEHeaderKey r.Name = CanonicalMIMEHeaderKey name) = some first)
    (hv : rendered env (dataOf env result) first = some v) :
    ∃ out ev, NewApiPluginProxy env ctx proxyPath route appId req = .returned out none ev ∧
      Header.values out.Header name = [v] := by
  obtain ⟨out, ev, ho, hi⟩ :=
    director_rendered env ctx proxyPath route appId req target ctxJson result hu hm hd hr
  refine ⟨out, ev, ho, ?_⟩
  unfold Header.values
  rw [hi _ first hfirst, hv]
  rfl

/-- C1, amended, on a route with rules `X-A: 1`, `X-B: b`, `x-a: 2`: the outbound
`X-A` is the single value `1`. -/
theorem first_rule_of_a_name_wins_witness :
    ∃ out ev, NewApiPluginProxy exampleEnv exampleCtx "query"
        (exampleRoute [⟨"X-A", "1"⟩, ⟨"X-B", "b"⟩, ⟨"x-a", "2"⟩]) "app"
        (exampleReq [("X-A", ["inbound"])] "1.2.3.4:5555") = .returned out none ev ∧
      Header.values out.Header "x-a" = ["1"] :=
  first_rule_of_a_name_wins exampleEnv exampleCtx "query"
    (exampleRoute [⟨"X-A", "1"⟩, ⟨"X-B", "b"⟩, ⟨"x-a", "2"⟩]) "app"
    (exampleReq [("X-A", ["inbound"])] "1.2.3.4:5555")
    ⟨"https", "backend.example", "/api", ""⟩ "\"admin\"" exampleSetting
    (by decide) rfl rfl (by decide) "x-a" ⟨"X-A", "1"⟩ "1"
    (by decide) (by decide)

/-- C2, as stated, fails: a route whose header rule is named `Cookie` puts a
`Cookie` header on the outbound request after the inbound one was deleted. -/
theorem cookie_rule_sets_cookie :
    (NewApiPluginProxy exampleEnv exampleCtx "query"
        (exampleRoute [⟨"Cookie", "session=plugin"⟩]) "app"
        (exampleReq [("Cookie", ["session=caller"])] "1.2.3.4:5555")).request?.map
          (fun r => Header.values r.Header "Cookie")
      = some ["session=plugin"] := by
  decide

/-- C2, amended: whenever the director ends in an error (identity serialisation or
header rendering) and whenever no header rule of the route is named `Cookie`,
`Set-Cookie`, `X-Forwarded-Host`, `X-Forwarded-Port` or `X-Forwarded-Proto`, the
request the director leaves has none of these five headers, whatever the inbound
request carried.  (A rule of one of these names that renders sets that header.) -/
theorem stripped_headers_stay_out (env : Env U J E S T) (ctx : Context U)
    (proxyPath : String) (route : AppPluginRoute) (appId : String) (req : Request)
    (target : URL)
    (hu : env.urlParse route.Url = some target)
    (hc : (NewApiPluginProxy env ctx proxyPath route appId req).apiErr? ≠ none ∨
      ∀ r ∈ route.Headers, CanonicalMIMEHeaderKey r.Name ∉ strippedHeaders) :
    ∃ out, (NewApiPluginProxy env ctx proxyPath route appId req).request? = some out ∧
      ∀ k ∈ strippedHeaders, Header.values out.Header k = [] := by
  obtain ⟨out, e, ev, ho, _, hi⟩ := director_index env ctx proxyPath route appId req target hu
  rw [ho] at hc ⊢
  refine ⟨out, rfl, ?_⟩
  intro k hk
  have hcan : CanonicalMIMEHeaderKey k = k := by
    revert k
    decide
  have hx : ¬ k = "X-Grafana-Context" := by
    intro h
    rw [h] at hk
    revert hk
    decide
  unfold Header.values
  rw [hcan, hi k ?_, index_forwarded, if_pos hk, if_neg hx]
  · rfl
  · rcases hc with hc | hc
    · exact Or.inl hc
    · refine Or.inr (fun r hr heq => hc r hr ?_)
      rw [heq]
      exact hk

/-- C2, amended, on an error path: the rule named `Cookie` does not compile, the
director reports the error and the inbound cookies are gone. -/
theorem stripped_headers_stay_out_witness :
    ∃ out, (NewApiPluginProxy exampleEnv exampleCtx "query"
        (exampleRoute [⟨"Cookie", "\x7b\x7b"⟩]) "app"
        (exampleReq [("Cookie", ["session=caller"]), ("X-Forwarded-Host", ["evil.example"])]
          "1.2.3.4:5555")).request? = some out ∧
      ∀ k ∈ strippedHeaders, Header.values out.Header k = [] :=
  stripped_headers_stay_out exampleEnv exampleCtx "query"
    (exampleRoute [⟨"Cookie", "\x7b\x7b"⟩]) "app"
    (exampleReq [("Cookie", ["session=caller"]), ("X-Forwarded-Host", ["evil.example"])]
      "1.2.3.4:5555")
    ⟨"https", "backend.example", "/api", ""⟩ (by decide) (Or.inl (by decide))

/-- C3, evaluated: when a header template does not compile, or the identity does not
serialise, the director records the 500 and returns; `ServeHTTP` cannot see that and
passes the request, rewritten up to that point, to the transport.  When the route
URL does not parse, the constructor drops the error and the director stops in a nil
dereference without reporting a 500. -/
theorem failed_director_reaches_transport :
    ((NewApiPluginProxy exampleEnv exampleCtx "query"
        (exampleRoute [⟨"X-Token", "\x7b\x7b"⟩]) "app"
        (exampleReq [] "1.2.3.4:5555")).apiErr?
      = some ⟨500, "Could not generate plugin route header",
          "could not parse header content template for header X-Token."⟩ ∧
     (ServeHTTP (NewApiPluginProxy exampleEnv exampleCtx "query"
        (exampleRoute [⟨"X-Token", "\x7b\x7b"⟩]) "app")
        (exampleReq [] "1.2.3.4:5555")).map (fun r => r.Header)
      = some [("X-Grafana-Context", ["\"admin\""]), ("X-Forwarded-For", ["1.2.3.4"])]) ∧
    ((NewApiPluginProxy exampleEnv brokenCtx "query" (exampleRoute []) "app"
        (exampleReq [] "1.2.3.4:5555")).apiErr?
      = some ⟨500, "failed to marshal context to json.", "json: unsupported value"⟩ ∧
     (ServeHTTP (NewApiPluginProxy exampleEnv brokenCtx "query" (exampleRoute []) "app")
        (exampleReq [] "1.2.3.4:5555")).map (fun r => r.Header)
      = some [("X-Forwarded-For", ["1.2.3.4"])]) ∧
    NewApiPluginProxy exampleEnv exampleCtx "query"
        { Url := "://backend", Headers := [] } "app" (exampleReq [] "1.2.3.4:5555")
      = .panicked [] := by
  decide

/-- C4, evaluated: an inbound `X-Grafana-Context` stays in front of the identity the
director appends with `Header.Add`, so the value read for that name is the inbound
one and not the JSON of the caller. -/
theorem inbound_context_header_is_read :
    exampleEnv.jsonMarshal exampleCtx.SignedInUser = .ok "\"admin\"" ∧
    (NewApiPluginProxy exampleEnv exampleCtx "query" (exampleRoute []) "app"
        (exampleReq [("X-Grafana-Context", ["\"root\""])] "1.2.3.4:5555")).request?.map
          (fun r => Header.values r.Header "X-Grafana-Context")
      = some ["\"root\"", "\"admin\""] ∧
    (NewApiPluginProxy exampleEnv exampleCtx "query" (exampleRoute []) "app"
        (exampleReq [("X-Grafana-Context", ["\"root\""])] "1.2.3.4:5555")).request?.map
          (fun r => Header.Get r.Header "X-Grafana-Context")
      = some "\"root\"" := by
  refine ⟨rfl, ?_, ?_⟩ <;> decide

/-- C5: for a remote address that splits into `host` and a port, on a route with no
header rule named `X-Forwarded-For`, the director leaves `X-Forwarded-For` with the
single value `host` when the inbound request had no value under it, and with the
single value `v, host` when the inbound request had the single non-empty value `v`. -/
theorem forwarded_for_host (env : Env U J E S T) (ctx : Context U)
    (proxyPath : String) (route : AppPluginRoute) (appId : String) (req : Request)
    (target : URL) (host port : String)
    (hu : env.urlParse route.Url = some target)
    (hs : SplitHostPort req.RemoteAddr = some (host, port))
    (hn : ∀ r ∈ route.Headers, CanonicalMIMEHeaderKey r.Name ≠ "X-Forwarded-For") :
    ∃ out, (NewApiPluginProxy env ctx proxyPath route appId req).request? = some out ∧
      (Header.values req.Header "X-Forwarded-For" = [] →
        Header.values out.Header "X-Forwarded-For" = [host]) ∧
      (∀ v, v ≠ "" → Header.values req.Header "X-Forwarded-For" = [v] →
        Header.values out.Header "X-Forwarded-For" = [v ++ ", " ++ host]) := by
  obtain ⟨out, e, ev, ho, _, hi⟩ := director_index env ctx proxyPath route appId req target hu
  have hne : req.RemoteAddr ≠ "" := by
    intro h
    rw [h] at hs
    have hempty : SplitHostPort "" = none := by decide
    rw [hempty] at hs
    cases hs
  have hhost : remoteHost req.RemoteAddr = host := by
    unfold remoteHost
    rw [hs]
  have hx : ¬ "X-Forwarded-For" = "X-Grafana-Context" := by decide
  have hst : ¬ "X-Forwarded-For" ∈ strippedHeaders := by decide
  have hval : Header.values out.Header "X-Forwarded-For" =
      [if Header.Get req.Header "X-Forwarded-For" ≠ "" then
          Header.Get req.Header "X-Forwarded-For" ++ ", " ++ host
        else host] := by
    unfold Header.values
    rw [canonical_forwardedFor, hi _ (Or.inr hn), index_forwarded, if_neg hst,
      if_pos ⟨rfl, hne⟩, if_neg hx, hhost]
    rfl
  rw [ho]
  refine ⟨out, rfl, ?_, ?_⟩
  · intro hin
    have hg : Header.Get req.Header "X-Forwarded-For" = "" := by
      unfold Header.Get
      unfold Header.values at hin
      rw [hin]
    rw [hval, hg]
    simp
  · intro v hv hin
    have hg : Header.Get req.Header "X-Forwarded-For" = v := by
      unfold Header.Get
      unfold Header.values at hin
      rw [hin]
    rw [hval, hg]
    simp [hv]

/-- C5 on the two examples of the specification: no inbound value and caller
`1.2.3.4:5555` give `1.2.3.4`; inbound `9.9.9.9` gives `9.9.9.9, 1.2.3.4`. -/
theorem forwarded_for_host_witness :
    (∃ out, (NewApiPluginProxy exampleEnv exampleCtx "query" (exampleRoute []) "app"
        (exampleReq [] "1.2.3.4:5555")).request? = some out ∧
      Header.values out.Header "X-Forwarded-For" = ["1.2.3.4"]) ∧
    (∃ out, (NewApiPluginProxy exampleEnv exampleCtx "query"
        (exampleRoute [⟨"X-Token", "t"⟩]) "app"
        (exampleReq [("X-Forwarded-For", ["9.9.9.9"])] "1.2.3.4:5555")).request? = some out ∧
      Header.values out.Header "X-Forwarded-For" = ["9.9.9.9, 1.2.3.4"]) := by
  constructor
  · obtain ⟨out, ho, h1, _⟩ := forwarded_for_host exampleEnv exampleCtx "query"
      (exampleRoute []) "app" (exampleReq [] "1.2.3.4:5555")
      ⟨"https", "backend.example", "/api", ""⟩ "1.2.3.4" "5555"
      (by decide) (by decide) (by decide)
    exact ⟨out, ho, h1 (by decide)⟩
  · obtain ⟨out, ho, _, h2⟩ := forwarded_for_host exampleEnv exampleCtx "query"
      (exampleRoute [⟨"X-Token", "t"⟩]) "app"
      (exampleReq [("X-Forwarded-For", ["9.9.9.9"])] "1.2.3.4:5555")
      ⟨"https", "backend.example", "/api", ""⟩ "1.2.3.4" "5555"
      (by decide) (by decide) (by decide)
    exact ⟨out, ho, h2 "9.9.9.9" (by decide) (by decide)⟩

/-- C6: on a route whose header rules have pairwise distinct names and all render,
for every rule with name `N` and rendered value `v` the director returns without
error and the outbound request has exactly the one value `v` under `N`, whatever
was under `N` before the custom-header step (so also for `X-Forwarded-For` and
`X-Grafana-Context`, which the director set earlier).  Names are compared as
`net/http` compares header names, by canonical key. -/
theorem distinct_rules_overwrite (env : Env U J E S T) (ctx : Context U)
    (proxyPath : String) (route : AppPluginRoute) (appId : String) (req : Request)
    (target : URL) (ctxJson : String) (result : PluginSetting J E)
    (hu : env.urlParse route.Url = some target)
    (hm : env.jsonMarshal ctx.SignedInUser = .ok ctxJson)
    (hd : env.dispatch ⟨ctx.OrgId, appId⟩ = .ok result)
    (hr : ∀ r ∈ route.Headers, (rendered env (dataOf env result) r).isSome)
    (hnd : (route.Headers.map (fun r => CanonicalMIMEHeaderKey r.Name)).Nodup)
    (rule : AppPluginRouteHeader) (v : String)
    (hmem : rule ∈ route.Headers)
    (hv : rendered env (dataOf env result) rule = some v) :
    ∃ out ev, NewApiPluginProxy env ctx proxyPath route appId req = .returned out none ev ∧
      Header.values out.Header rule.Name = [v] := by
  obtain ⟨out, ev, ho, hi⟩ :=
    director_rendered env ctx proxyPath route appId req target ctxJson result hu hm hd hr
  refine ⟨out, ev, ho, ?_⟩
  unfold Header.values
  rw [hi _ rule (find_of_nodup route.Headers hnd rule hmem), hv]
  rfl

/-- C6 on a route that names `X-Forwarded-For` and `X-Grafana-Context`: the rule
value replaces the chain and the identity the director had put there. -/
theorem distinct_rules_overwrite_witness :
    ∃ out ev, NewApiPluginProxy exampleEnv exampleCtx "query"
        (exampleRoute [⟨"X-Forwarded-For", "7.7.7.7"⟩,
          ⟨"X-Grafana-Context", "\x7b\x7b.SecureJsonData.token\x7d\x7d"⟩]) "app"
        (exampleReq [("X-Forwarded-For", ["9.9.9.9"]), ("X-Grafana-Context", ["\"root\""])]
          "1.2.3.4:5555") = .returned out none ev ∧
      Header.values out.Header "X-Grafana-Context" = ["secret"] :=
  distinct_rules_overwrite exampleEnv exampleCtx "query"
    (exampleRoute [⟨"X-Forwarded-For", "7.7.7.7"⟩,
      ⟨"X-Grafana-Context", "\x7b\x7b.SecureJsonData.token\x7d\x7d"⟩]) "app"
    (exampleReq [("X-Forwarded-For", ["9.9.9.9"]), ("X-Grafana-Context", ["\"root\""])]
      "1.2.3.4:5555")
    ⟨"https", "backend.example", "/api", ""⟩ "\"admin\"" exampleSetting
    (by decide) rfl rfl (by decide) (by decide)
    ⟨"X-Grafana-Context", "\x7b\x7b.SecureJsonData.token\x7d\x7d"⟩ "secret"
    (by decide) (by decide)

/-- C8: with the settings resolved, if some header rule does not render then
`getHeaders` returns an error and no header set; the error names the first rule in
route order that fails, as a parse error when its template does not compile and as
an execution error when it compiles but does not execute; the rules before it are
rendered and no rule after it is compiled or executed.  If every rule renders,
`getHeaders` returns a header set and no error. -/
theorem getHeaders_first_failing_rule (env : Env U J E S T) (route : AppPluginRoute)
    (orgId : Int) (appId : String) (result : PluginSetting J E)
    (hd : env.dispatch ⟨orgId, appId⟩ = .ok result) :
    ((∃ x ∈ route.Headers, rendered env (dataOf env result) x = none) →
      ∃ pre r post, route.Headers = pre ++ r :: post ∧
        (∀ x ∈ pre, (rendered env (dataOf env result) x).isSome) ∧
        rendered env (dataOf env result) r = none ∧
        (env.templateParse r.Content = none →
          getHeaders env route orgId appId =
            (.dispatch ⟨orgId, appId⟩ :: ((pre.map renderEvents).flatten ++ [.parse r.Name]),
              .error ("could not parse header content template for header " ++ r.Name ++ "."))) ∧
        (∀ t, env.templateParse r.Content = some t →
          getHeaders env route orgId appId =
            (.dispatch ⟨orgId, appId⟩ ::
                ((pre.map renderEvents).flatten ++ [.parse r.Name, .execute r.Name]),
              .error ("failed to execute header content template for header " ++ r.Name ++ ".")))) ∧
    ((∀ x ∈ route.Headers, (rendered env (dataOf env result) x).isSome) →
      ∃ h, getHeaders env route orgId appId =
        (.dispatch ⟨orgId, appId⟩ :: (route.Headers.map renderEvents).flatten, .ok h)) := by
  constructor
  · intro hf
    obtain ⟨pre, r, post, he, hpre, hr⟩ := first_failure env (dataOf env result) route.Headers hf
    obtain ⟨h1, h2⟩ := renderHeaders_fail env (dataOf env result) pre r post [] hpre
    refine ⟨pre, r, post, he, hpre, hr, ?_, ?_⟩
    · intro hp
      have := h1 hp
      unfold dataOf at this
      unfold getHeaders
      simp only [hd, he, this]
    · intro t hp
      have hx : env.templateExecute t (dataOf env result) = none := by
        simpa [rendered, hp] using hr
      have := h2 t hp hx
      unfold dataOf at this
      unfold getHeaders
      simp only [hd, he, this]
  · intro hall
    obtain ⟨h, he, _⟩ :=
      renderHeaders_ok env (dataOf env result) route.Headers [] wellKeyed_nil hall
    refine ⟨h, ?_⟩
    unfold dataOf at he
    unfold getHeaders
    simp only [hd, he]

/-- C8 on a route of four rules whose third does not execute and whose fourth does
not compile (the error names the third, the fourth is never compiled), and on a
route whose two rules render. -/
theorem getHeaders_first_failing_rule_witness :
    (∃ pre r post, (exampleRoute failingRules).Headers = pre ++ r :: post ∧
        (∀ x ∈ pre, (rendered exampleEnv (dataOf exampleEnv exampleSetting) x).isSome) ∧
        rendered exampleEnv (dataOf exampleEnv exampleSetting) r = none ∧
        (exampleEnv.templateParse r.Content = none →
          getHeaders exampleEnv (exampleRoute failingRules) 1 "app" =
            (.dispatch ⟨1, "app"⟩ :: ((pre.map renderEvents).flatten ++ [.parse r.Name]),
              .error ("could not parse header content template for header " ++ r.Name ++ "."))) ∧
        (∀ t, exampleEnv.templateParse r.Content = some t →
          getHeaders exampleEnv (exampleRoute failingRules) 1 "app" =
            (.dispatch ⟨1, "app"⟩ ::
                ((pre.map renderEvents).flatten ++ [.parse r.Name, .execute r.Name]),
              .error ("failed to execute header content template for header " ++ r.Name ++ ".")))) ∧
    (∃ h, getHeaders exampleEnv (exampleRoute renderingRules) 1 "app" =
        (.dispatch ⟨1, "app"⟩ :: ((exampleRoute renderingRules).Headers.map renderEvents).flatten,
          .ok h)) ∧
    getHeaders exampleEnv (exampleRoute failingRules) 1 "app"
      = ([.dispatch ⟨1, "app"⟩, .parse "X-A", .execute "X-A", .parse "X-B", .execute "X-B",
          .parse "X-C", .execute "X-C"],
        .error "failed to execute header content template for header X-C.") ∧
    getHeaders exampleEnv (exampleRoute renderingRules) 1 "app"
      = ([.dispatch ⟨1, "app"⟩, .parse "X-B", .execute "X-B", .parse "Authorization",
          .execute "Authorization"],
        .ok [("Authorization", ["secret"]), ("X-B", ["v"])]) :=
  ⟨(getHeaders_first_failing_rule exampleEnv (exampleRoute failingRules) 1 "app"
      exampleSetting rfl).1 ⟨⟨"X-D", "\x7b\x7b"⟩, by decide, by decide⟩,
    (getHeaders_first_failing_rule exampleEnv (exampleRoute renderingRules) 1 "app"
      exampleSetting rfl).2 (by decide), rfl, rfl⟩

/-- C10, evaluated: with the two inbound `X-Forwarded-For` values `9.9.9.9` and
`8.8.8.8` and caller `1.2.3.4:5555`, the director reads the chain back with
`Header.Get`, which sees the first value only, and writes `9.9.9.9, 1.2.3.4`: the
inbound address `8.8.8.8` is gone from the outbound header. -/
theorem forwarded_chain_loses_later_values :
    (NewApiPluginProxy exampleEnv exampleCtx "query" (exampleRoute []) "app"
        (exampleReq [("X-Forwarded-For", ["9.9.9.9", "8.8.8.8"])] "1.2.3.4:5555")).request?.map
          (fun r => Header.values r.Header "X-Forwarded-For")
      = some ["9.9.9.9, 1.2.3.4"] ∧
    (NewApiPluginProxy exampleEnv exampleCtx "query" (exampleRoute []) "app"
        (exampleReq [("X-Forwarded-For", ["9.9.9.9", "8.8.8.8"])] "1.2.3.4:5555")).request?.map
          (fun r => Header.values r.Header "X-Forwarded-For")
      ≠ some ["9.9.9.9, 8.8.8.8, 1.2.3.4"] := by
  decide

/-- The chain step on a single inbound value: for an inbound request with exactly
one, non-empty, `X-Forwarded-For` value and a non-empty remote address, on a route
with no header rule named `X-Forwarded-For`, the outbound `X-Forwarded-For` is the
inbound value, unchanged and first, then `, `, then the caller address. -/
theorem forwarded_chain_extended (env : Env U J E S T) (ctx : Context U)
    (proxyPath : String) (route : AppPluginRoute) (appId : String) (req : Request)
    (target : URL) (v : String)
    (hu : env.urlParse route.Url = some target)
    (hne : req.RemoteAddr ≠ "")
    (hv : v ≠ "")
    (hin : Header.values req.Header "X-Forwarded-For" = [v])
    (hn : ∀ r ∈ route.Headers, CanonicalMIMEHeaderKey r.Name ≠ "X-Forwarded-For") :
    ∃ out, (NewApiPluginProxy env ctx proxyPath route appId req).request? = some out ∧
      Header.values out.Header "X-Forwarded-For" =
        [v ++ ", " ++ remoteHost req.RemoteAddr] := by
  obtain ⟨out, e, ev, ho, _, hi⟩ := director_index env ctx proxyPath route appId req target hu
  have hx : ¬ "X-Forwarded-For" = "X-Grafana-Context" := by decide
  have hst : ¬ "X-Forwarded-For" ∈ strippedHeaders := by decide
  have hg : Header.Get req.Header "X-Forwarded-For" = v := by
    unfold Header.Get
    unfold Header.values at hin
    rw [hin]
  rw [ho]
  refine ⟨out, rfl, ?_⟩
  unfold Header.values
  rw [canonical_forwardedFor, hi _ (Or.inr hn), index_forwarded, if_neg hst,
    if_pos ⟨rfl, hne⟩, if_neg hx, hg]
  simp [hv]

/-- The chain step on inbound `9.9.9.9, 8.8.8.8` held in one value and caller
`1.2.3.4:5555`: the outbound value is `9.9.9.9, 8.8.8.8, 1.2.3.4`. -/
theorem forwarded_chain_extended_example :
    ∃ out, (NewApiPluginProxy exampleEnv exampleCtx "query"
        (exampleRoute [⟨"X-Token", "t"⟩]) "app"
        (exampleReq [("X-Forwarded-For", ["9.9.9.9, 8.8.8.8"])] "1.2.3.4:5555")).request?
          = some out ∧
      Header.values out.Header "X-Forwarded-For" = ["9.9.9.9, 8.8.8.8, 1.2.3.4"] := by
  obtain ⟨out, ho, hval⟩ := forwarded_chain_extended exampleEnv exampleCtx "query"
    (exampleRoute [⟨"X-Token", "t"⟩]) "app"
    (exampleReq [("X-Forwarded-For", ["9.9.9.9, 8.8.8.8"])] "1.2.3.4:5555")
    ⟨"https", "backend.example", "/api", ""⟩ "9.9.9.9, 8.8.8.8"
    (by decide) (by decide) (by decide) (by decide) (by decide)
  exact ⟨out, ho, hval.trans (by decide)⟩

end Renderer

end PluginProxy
